import Mathlib

/-!
Shallow embedding of the gziphandler middleware (src/gzip.go).

The buffering decision writer (`responseWriter` in the source) is modelled as
an explicit state machine over `RWState`.  The bytes that reach the underlying
`http.ResponseWriter` are recorded as a list of `Event`s: status-line
emissions, plain body chunks, compressed body chunks and underlying flushes.

The gzip codec (`compress/gzip`, an external collaborator of this repository)
is modelled abstractly: a compressed chunk is recorded together with the byte
sequence its decompression yields, so that "decompressing the compressed
stream" is the concatenation of the recorded labels.  The `sync.Pool` of
`gzip.Writer`s is modelled as a free list of handle identifiers together with
a fresh-handle counter.
-/

namespace Gziphandler

/-- A byte is modelled as a natural number; a byte string as a list. -/
abbrev Bytes := List Nat

/-- The Go `http.Header` map, modelled as an association list with unique
keys kept in insertion order.  Only lookup, replacing insert and delete are
used by the source. -/
abbrev HeaderMap := List (String × List String)

/-- Lookup in a header map (Go `h[k]` with the comma-ok idiom). -/
def hGet (h : HeaderMap) (k : String) : Option (List String) :=
  match h with
  | [] => none
  | (k1, v) :: t => if k1 = k then some v else hGet t k

/-- Insert-or-replace in a header map (Go `h[k] = v`). -/
def hSet (h : HeaderMap) (k : String) (v : List String) : HeaderMap :=
  match h with
  | [] => [(k, v)]
  | (k1, v1) :: t => if k1 = k then (k, v) :: t else (k1, v1) :: hSet t k v

/-- Delete from a header map (Go `delete(h, k)`). -/
def hDel (h : HeaderMap) (k : String) : HeaderMap :=
  match h with
  | [] => []
  | (k1, v1) :: t => if k1 = k then hDel t k else (k1, v1) :: hDel t k

/-- What the underlying `http.ResponseWriter` observes. -/
inductive Event where
  /-- A call to the underlying `WriteHeader(code)`. -/
  | wh (code : Nat)
  /-- A plain (uncompressed) body chunk written by `ResponseWriter.Write`. -/
  | plain (b : Bytes)
  /-- A chunk of the compressed stream, labelled by the byte sequence its
  decompression contributes. -/
  | gzChunk (b : Bytes)
  /-- A forwarded `Flush` on the underlying writer. -/
  | flushed
deriving DecidableEq, Repr

/-- Modelled from the spec: the external compression codec (a `gzip.Writer`
bound to the underlying writer by `Reset`).  `id` is the pooled handle's
identity, `fed` the concatenation of all byte slices written through it; the
codec's contract is that decompressing its total emitted output yields `fed`. -/
structure GzWriter where
  id : Nat
  fed : Bytes
deriving DecidableEq, Repr

/-- The `sync.Pool` of `gzip.Writer`s: a free list of handle identifiers and
a counter for allocating fresh handles (the pool's `New` function). -/
structure GzPool where
  free : List Nat
  next : Nat
deriving DecidableEq, Repr

/-- `pool.Get()`: pop a free handle, or allocate a fresh one. -/
def poolGet (p : GzPool) : Nat × GzPool :=
  match p.free with
  | h :: t => (h, ⟨t, p.next⟩)
  | [] => (p.next, ⟨[], p.next + 1⟩)

/-- `pool.Put(h)`: push a handle back onto the free list. -/
def poolPut (p : GzPool) (h : Nat) : GzPool := ⟨h :: p.free, p.next⟩

/-- The `writerState` enumeration of the source. -/
inductive WState where
  | initial
  | passThrough
  | compress
deriving DecidableEq, Repr

/-- Per-middleware configuration visible to the decision writer: the
minimum-size threshold, the optional compressibility predicate, the content
sniffing function (the core of `http.DetectContentType`, which examines at
most the first 512 bytes of its argument), and whether the underlying writer
implements `http.Flusher`. -/
structure Config where
  minSize : Nat
  canCompress : Option (HeaderMap → Bool)
  sniff : Bytes → String
  uFlush : Bool

/-- `http.DetectContentType` considers at most the first 512 bytes of its
argument (documented contract of the external collaborator). -/
def detectContentType (cfg : Config) (b : Bytes) : String :=
  cfg.sniff (b.take 512)

/-- The state of one `responseWriter` (gzip.go lines 45-60) together with the
record of everything that reached the underlying writer.  `whCount` counts
underlying `WriteHeader` calls and `inferLog` records, for each invocation of
`inferContentType`, the value of `whCount` at that moment; both are ghost
fields read by no transition. -/
structure RWState where
  header : HeaderMap
  events : List Event
  code : Nat
  buf : Option Bytes
  gw : Option GzWriter
  state : WState
  pool : GzPool
  whCount : Nat
  inferLog : List Nat
deriving DecidableEq, Repr

/-- `responseWriter.WriteHeader` (gzip.go lines 64-66): just saves the code. -/
def rwWriteHeader (s : RWState) (code : Nat) : RWState :=
  { s with code := code }

/-- The sniff argument assembled by `inferContentType` (gzip.go lines
185-194): the buffered bytes, possibly completed from the triggering write up
to the 512-byte sniff window. -/
def sniffArg (buf b : Bytes) : Bytes :=
  if buf.length ≠ 0 then
    if 512 ≤ buf.length then buf
    else if 512 < buf.length + b.length then buf ++ b.take (512 - buf.length)
    else buf ++ b
  else b

/-- The header-map effect of `responseWriter.inferContentType`
(gzip.go lines 177-198): set `Content-Type` from sniffing unless the handler
already set one. -/
def inferCTHeader (cfg : Config) (h : HeaderMap) (buf0 : Option Bytes)
    (b : Bytes) : HeaderMap :=
  match hGet h "Content-Type" with
  | some _ => h
  | none =>
    hSet h "Content-Type" [detectContentType cfg (sniffArg (buf0.getD []) b)]

/-- `responseWriter.inferContentType` (gzip.go lines 177-198), with its
invocation recorded in the ghost `inferLog`. -/
def inferContentType (cfg : Config) (s : RWState) (b : Bytes) : RWState :=
  { s with
    header := inferCTHeader cfg s.header s.buf b,
    inferLog := s.inferLog ++ [s.whCount] }

/-- `responseWriter.startPassThrough` (gzip.go lines 116-137): emit the saved
status code, write the buffered bytes verbatim (skipped when empty), release
the buffer and move to the pass-through state. -/
def startPassThrough (s : RWState) : RWState :=
  { s with
    events := (s.events ++ [Event.wh s.code]) ++
      (if (s.buf.getD []).length ≠ 0 then [Event.plain (s.buf.getD [])] else []),
    whCount := s.whCount + 1,
    buf := none,
    state := WState.passThrough }

/-- `responseWriter.startGzip` (gzip.go lines 140-175): set
`Content-Encoding: gzip`, delete `Content-Length`, emit the saved status code,
acquire a compressor from the pool, flush the buffer through it (skipped when
empty) and release the buffer. -/
def startGzip (s : RWState) : RWState :=
  let buf := s.buf.getD []
  let gp := poolGet s.pool
  { s with
    header := hDel (hSet s.header "Content-Encoding" ["gzip"]) "Content-Length",
    events := (s.events ++ [Event.wh s.code]) ++
      (if buf.length ≠ 0 then [Event.gzChunk buf] else []),
    whCount := s.whCount + 1,
    pool := gp.2,
    gw := some ⟨gp.1, buf⟩,
    buf := none }

/-- A write through the acquired compressor (`w.gw.Write(b)`). -/
def gwWrite (s : RWState) (b : Bytes) : RWState :=
  match s.gw with
  | some g => { s with events := s.events ++ [Event.gzChunk b], gw := some ⟨g.id, g.fed ++ b⟩ }
  | none => s

/-- `responseWriter.Write` (gzip.go lines 69-112).  Returns `none` where the
Go code would dereference the released nil buffer pointer (a write after
finalization), otherwise the new state and the reported byte count. -/
def rwWrite (cfg : Config) (s : RWState) (b : Bytes) : Option (RWState × Nat) :=
  if s.state = WState.passThrough then
    some ({ s with events := s.events ++ [Event.plain b] }, b.length)
  else if s.gw.isSome then
    some (gwWrite s b, b.length)
  else
    match s.buf with
    | none => none
    | some buf =>
      if buf.length + b.length < cfg.minSize then
        some ({ s with buf := some (buf ++ b) }, b.length)
      else if s.state = WState.initial then
        let s1 := inferContentType cfg s b
        if (match cfg.canCompress with
            | some cc => !cc s1.header
            | none => false) then
          let s2 := startPassThrough s1
          some ({ s2 with events := s2.events ++ [Event.plain b] }, b.length)
        else
          some (gwWrite (startGzip { s1 with state := WState.compress }) b, b.length)
      else
        some (gwWrite (startGzip s) b, b.length)

/-- `responseWriter.Flush` (gzip.go lines 241-249): flush the compressor when
one exists (the emitted sync block contributes no decompressed bytes), then
forward the flush to the underlying writer when it is an `http.Flusher`. -/
def rwFlush (cfg : Config) (s : RWState) : RWState :=
  let s1 :=
    match s.gw with
    | some _ => { s with events := s.events ++ [Event.gzChunk []] }
    | none => s
  if cfg.uFlush then { s1 with events := s1.events ++ [Event.flushed] } else s1

/-- `responseWriter.Close` (gzip.go lines 202-236).  The second component is
the returned error; downstream writes cannot fail in this model, so it is
always `none` (Go `nil`). -/
def rwClose (cfg : Config) (s : RWState) : RWState × Option String :=
  let s1 :=
    match s.buf with
    | some buf =>
      let si := inferContentType cfg s []
      { si with
        events := (si.events ++ [Event.wh si.code]) ++ [Event.plain buf],
        whCount := si.whCount + 1,
        buf := none }
    | none => s
  match s1.gw with
  | none => (s1, none)
  | some g =>
    ({ s1 with
        events := s1.events ++ [Event.gzChunk []],
        pool := poolPut s1.pool g.id,
        gw := none }, none)

/-- An operation the wrapped handler may perform on the decorated writer. -/
inductive HOp where
  | write (b : Bytes)
  | writeHeader (code : Nat)
  | setHeader (k : String) (v : List String)
  | flush
deriving DecidableEq, Repr

/-- One handler operation applied to the decision writer. -/
def step (cfg : Config) (s : RWState) : HOp → Option RWState
  | HOp.write b => (rwWrite cfg s b).map Prod.fst
  | HOp.writeHeader c => some (rwWriteHeader s c)
  | HOp.setHeader k v => some { s with header := hSet s.header k v }
  | HOp.flush => some (rwFlush cfg s)

/-- Run a list of handler operations. -/
def run (cfg : Config) (s : RWState) : List HOp → Option RWState
  | [] => some s
  | op :: t =>
    match step cfg s op with
    | none => none
    | some s1 => run cfg s1 t

/-- Run the handler's operations and then the middleware's deferred `Close`
(gzip.go line 293). -/
def runClose (cfg : Config) (s : RWState) (ops : List HOp) :
    Option (RWState × Option String) :=
  (run cfg s ops).map (rwClose cfg)

/-- `hdr["Vary"] = append(hdr["Vary"], "Accept-Encoding")`
(gzip.go lines 262-263). -/
def addVary (h : HeaderMap) : HeaderMap :=
  hSet h "Vary" ((hGet h "Vary").getD [] ++ ["Accept-Encoding"])

/-- The decision writer constructed by `handler.ServeHTTP`
(gzip.go lines 282-292), given the response's initial header map and the
middleware's compressor pool. -/
def initState (h0 : HeaderMap) (pool : GzPool) : RWState :=
  { header := addVary h0
    events := []
    code := 200
    buf := some []
    gw := none
    state := WState.initial
    pool := pool
    whCount := 0
    inferLog := [] }

/-- Discriminates underlying `WriteHeader` events. -/
def isWh : Event → Bool
  | Event.wh _ => true
  | _ => false

/-- Discriminates body events (plain or compressed chunks). -/
def isBody : Event → Bool
  | Event.plain _ => true
  | Event.gzChunk _ => true
  | _ => false

/-- Discriminates forwarded-flush events. -/
def isFlushEvt : Event → Bool
  | Event.flushed => true
  | _ => false

/-- Number of underlying `WriteHeader` calls recorded in an event list. -/
def countWh (evs : List Event) : Nat := (evs.filter isWh).length

/-- Concatenation of the uncompressed body bytes that reached the underlying
writer. -/
def plainBody : List Event → Bytes
  | [] => []
  | Event.plain b :: t => b ++ plainBody t
  | _ :: t => plainBody t

/-- Decompression of the compressed stream that reached the underlying
writer: the concatenation of the decompressed contents of its chunks. -/
def gzBody : List Event → Bytes
  | [] => []
  | Event.gzChunk b :: t => b ++ gzBody t
  | _ :: t => gzBody t

/-- The status line precedes every body chunk: no body event occurs before
the first underlying `WriteHeader` event. -/
def wellOrdered (evs : List Event) : Bool :=
  (evs.takeWhile (fun e => !isWh e)).all (fun e => !isBody e)

/-- The byte slices passed to `Write` by an operation (empty for the
others). -/
def opWrites : HOp → Bytes
  | HOp.write b => b
  | _ => []

/-- Concatenation, in call order, of the byte slices the handler passed to
`Write`. -/
def writesOf : List HOp → Bytes
  | [] => []
  | op :: t => opWrites op ++ writesOf t

/-! ### Accept-Encoding negotiation (handler.ServeHTTP, gzip.go lines 265-280)

The external `header.ParseAccept` collaborator is modelled by its output: an
ordered list of (token, quality) pairs, with the quality in thousandths so
that `0 < q` is the Go comparison `spec.Q > 0`. -/

/-- The token comparison of the loop body:
`spec.Value == "gzip" || strings.ToLower(spec.Value) == "gzip"`. -/
def isGzipToken (v : String) : Bool :=
  v = "gzip" || v.toLower = "gzip"

/-- The `acceptsGzip` loop of `handler.ServeHTTP` (gzip.go lines 265-275):
skip tokens whose length differs from that of "gzip"; at the first
case-insensitive "gzip" token, record whether its quality is positive and
break. -/
def acceptsGzip : List (String × Nat) → Bool
  | [] => false
  | (v, q) :: t =>
    if v.length ≠ 4 then acceptsGzip t
    else if isGzipToken v then decide (0 < q)
    else acceptsGzip t

/-- The quality of the first entry the source's loop would match: the first
token of length 4 equal to "gzip" case-insensitively. -/
def firstGzipQ : List (String × Nat) → Option Nat
  | [] => none
  | (v, q) :: t =>
    if v.length = 4 && isGzipToken v then some q else firstGzipQ t

/-! ### Capability multiplexer (handler.ServeHTTP, gzip.go lines 295-312) -/

/-- The four optional capabilities of a response writer, plus `flush`.  The
decision writer itself always implements `http.Flusher` (gzip.go lines
241-249), and each wrapper type embeds `responseWriterFlusher`. -/
structure Caps where
  closeNotify : Bool
  hijack : Bool
  push : Bool
  flush : Bool
deriving DecidableEq, Repr

/-- The capability set of the underlying writer: which of
`http.CloseNotifier`, `http.Hijacker`, `http.Pusher`, `http.Flusher` its
dynamic type implements. -/
def underlyingCaps (cok hok pok fok : Bool) : Caps :=
  ⟨cok, hok, pok, fok⟩

/-- The capability set of the writer handed to the wrapped handler, as chosen
by the `switch` of `handler.ServeHTTP` (gzip.go lines 301-312) from the
underlying writer's `CloseNotifier`/`Hijacker`/`Pusher` interface checks. -/
def exposedCaps (cok hok pok : Bool) : Caps :=
  if cok && hok then ⟨true, true, false, true⟩
  else if cok && pok then ⟨true, false, true, true⟩
  else if cok then ⟨true, false, false, true⟩
  else if hok then ⟨false, true, false, true⟩
  else if pok then ⟨false, false, true, true⟩
  else ⟨false, false, false, true⟩

/-! ### Header-map lemmas -/

theorem hGet_hSet_self (h : HeaderMap) (k : String) (v : List String) :
    hGet (hSet h k v) k = some v := by
  induction h with
  | nil => simp [hGet, hSet]
  | cons p t ih =>
    by_cases hk : p.1 = k
    · simp [hSet, hGet, hk]
    · simp [hSet, hGet, hk, ih]

theorem hGet_hSet_ne (h : HeaderMap) {k1 k : String} (hne : k1 ≠ k)
    (v : List String) : hGet (hSet h k v) k1 = hGet h k1 := by
  have hne' : ¬ (k = k1) := fun he => hne he.symm
  induction h with
  | nil => simp [hGet, hSet, hne']
  | cons p t ih =>
    obtain ⟨pk, pv⟩ := p
    by_cases hk : pk = k
    · subst hk
      simp [hSet, hGet, hne']
    · by_cases hk1 : pk = k1
      · simp [hSet, hGet, hk, hk1, hne, hne']
      · simp [hSet, hGet, hk, hk1, ih]

theorem hGet_hDel_self (h : HeaderMap) (k : String) :
    hGet (hDel h k) k = none := by
  induction h with
  | nil => simp [hGet, hDel]
  | cons p t ih =>
    obtain ⟨pk, pv⟩ := p
    by_cases hk : pk = k
    · simp [hDel, hGet, hk, ih]
    · simp [hDel, hGet, hk, ih]

theorem hGet_hDel_ne (h : HeaderMap) {k1 k : String} (hne : k1 ≠ k) :
    hGet (hDel h k) k1 = hGet h k1 := by
  have hne' : ¬ (k = k1) := fun he => hne he.symm
  induction h with
  | nil => simp [hGet, hDel]
  | cons p t ih =>
    obtain ⟨pk, pv⟩ := p
    by_cases hk : pk = k
    · subst hk
      simp [hDel, hGet, hne', ih]
    · by_cases hk1 : pk = k1
      · simp [hDel, hGet, hk, hk1, hne, hne']
      · simp [hDel, hGet, hk, hk1, ih]

/-! ### Event-list lemmas -/

theorem plainBody_append (a b : List Event) :
    plainBody (a ++ b) = plainBody a ++ plainBody b := by
  induction a with
  | nil => simp [plainBody]
  | cons e t ih => cases e <;> simp [plainBody, ih]

theorem gzBody_append (a b : List Event) :
    gzBody (a ++ b) = gzBody a ++ gzBody b := by
  induction a with
  | nil => simp [gzBody]
  | cons e t ih => cases e <;> simp [gzBody, ih]

theorem countWh_append (a b : List Event) :
    countWh (a ++ b) = countWh a + countWh b := by
  simp [countWh, List.filter_append]

theorem countWh_cons (e : Event) (t : List Event) :
    countWh (e :: t) = (if isWh e then 1 else 0) + countWh t := by
  by_cases he : isWh e = true <;>
    simp [countWh, List.filter_cons, he, Nat.add_comm]

theorem flushOnly_plainBody {evs : List Event} (h : evs.all isFlushEvt = true) :
    plainBody evs = [] := by
  induction evs with
  | nil => rfl
  | cons e t ih =>
    rw [List.all_cons, Bool.and_eq_true] at h
    obtain ⟨h1, h2⟩ := h
    cases e with
    | flushed => simpa [plainBody] using ih h2
    | wh c => simp [isFlushEvt] at h1
    | plain b => simp [isFlushEvt] at h1
    | gzChunk b => simp [isFlushEvt] at h1

theorem flushOnly_gzBody {evs : List Event} (h : evs.all isFlushEvt = true) :
    gzBody evs = [] := by
  induction evs with
  | nil => rfl
  | cons e t ih =>
    rw [List.all_cons, Bool.and_eq_true] at h
    obtain ⟨h1, h2⟩ := h
    cases e with
    | flushed => simpa [gzBody] using ih h2
    | wh c => simp [isFlushEvt] at h1
    | plain b => simp [isFlushEvt] at h1
    | gzChunk b => simp [isFlushEvt] at h1

theorem flushOnly_countWh {evs : List Event} (h : evs.all isFlushEvt = true) :
    countWh evs = 0 := by
  induction evs with
  | nil => rfl
  | cons e t ih =>
    rw [List.all_cons, Bool.and_eq_true] at h
    obtain ⟨h1, h2⟩ := h
    cases e with
    | flushed => simpa [countWh_cons, isWh] using ih h2
    | wh c => simp [isFlushEvt] at h1
    | plain b => simp [isFlushEvt] at h1
    | gzChunk b => simp [isFlushEvt] at h1

theorem takeWhile_flush_prefix {evs : List Event} (h : evs.all isFlushEvt = true)
    (c : Nat) (rest : List Event) :
    (evs ++ Event.wh c :: rest).takeWhile (fun e => !isWh e) = evs := by
  induction evs with
  | nil => simp [List.takeWhile_cons, isWh]
  | cons e t ih =>
    rw [List.all_cons, Bool.and_eq_true] at h
    obtain ⟨h1, h2⟩ := h
    cases e with
    | flushed => simpa [List.takeWhile_cons, isWh] using ih h2
    | wh c1 => simp [isFlushEvt] at h1
    | plain b => simp [isFlushEvt] at h1
    | gzChunk b => simp [isFlushEvt] at h1

theorem wellOrdered_commit {evs : List Event} (h : evs.all isFlushEvt = true)
    (c : Nat) (rest : List Event) :
    wellOrdered (evs ++ Event.wh c :: rest) = true := by
  rw [wellOrdered, takeWhile_flush_prefix h]
  rw [List.all_eq_true] at h ⊢
  intro x hx
  have hf := h x hx
  cases x with
  | wh c1 => simp [isFlushEvt] at hf
  | plain b => simp [isFlushEvt] at hf
  | gzChunk b => simp [isFlushEvt] at hf
  | flushed => simp [isBody]

theorem takeWhile_append_of_wh {evs : List Event} (h : 1 ≤ countWh evs)
    (l : List Event) :
    (evs ++ l).takeWhile (fun e => !isWh e) =
      evs.takeWhile (fun e => !isWh e) := by
  induction evs with
  | nil => simp [countWh] at h
  | cons e t ih =>
    by_cases he : isWh e = true
    · simp [List.takeWhile_cons, he]
    · have h1 : 1 ≤ countWh t := by
        rw [countWh_cons] at h
        simpa [he] using h
      simp [List.takeWhile_cons, he, ih h1]

theorem wellOrdered_append_of_wh {evs : List Event} (h : 1 ≤ countWh evs)
    (l : List Event) : wellOrdered (evs ++ l) = wellOrdered evs := by
  rw [wellOrdered, takeWhile_append_of_wh h, wellOrdered]

/-! ### The reachability invariant of the decision writer -/

/-- States still buffering: nothing has reached the underlying writer except
forwarded flushes, the buffer holds exactly the bytes written so far, and the
buffered prefix is below the threshold (or empty). -/
def preC (cfg : Config) (s : RWState) (ws : Bytes) : Prop :=
  s.state = WState.initial ∧ s.gw = none ∧ s.buf = some ws ∧
  s.events.all isFlushEvt = true ∧ s.inferLog = [] ∧ s.whCount = 0 ∧
  (ws.length < cfg.minSize ∨ ws = [])

/-- States that committed to a path: the status line went out exactly once,
before any body event; content inference ran exactly once, before the status
line; and the body that reached the underlying writer is exactly the bytes
written so far, on whichever path was chosen. -/
def postC (cfg : Config) (s : RWState) (ws : Bytes) : Prop :=
  s.buf = none ∧ countWh s.events = 1 ∧ wellOrdered s.events = true ∧
  s.inferLog = [0] ∧
  ((s.state = WState.passThrough ∧ s.gw = none ∧ plainBody s.events = ws ∧
      gzBody s.events = [] ∧ cfg.canCompress ≠ none) ∨
   (s.state = WState.compress ∧ (∃ g, s.gw = some g ∧ g.fed = ws) ∧
      gzBody s.events = ws ∧ plainBody s.events = []))

/-- Every state reachable from `initState` is buffering or committed. -/
def Inv (cfg : Config) (s : RWState) (ws : Bytes) : Prop :=
  preC cfg s ws ∨ postC cfg s ws

theorem initInv (cfg : Config) (h0 : HeaderMap) (pool : GzPool) :
    Inv cfg (initState h0 pool) [] := by
  left
  refine ⟨rfl, rfl, rfl, rfl, rfl, rfl, Or.inr rfl⟩

/-! ### Content-type inference lemmas -/

/-- The sniff argument agrees with the concatenation of the buffered bytes
and the triggering write on the 512-byte sniff window. -/
theorem sniffArg_take (buf b : Bytes) :
    (sniffArg buf b).take 512 = (buf ++ b).take 512 := by
  by_cases h0 : buf.length = 0
  · have hb : buf = [] := List.length_eq_zero.mp h0
    simp [sniffArg, hb]
  · rw [sniffArg, if_pos h0]
    by_cases h512 : 512 ≤ buf.length
    · rw [if_pos h512, List.take_append_of_le_length h512]
    · rw [if_neg h512]
      have hlt : buf.length ≤ 512 := Nat.le_of_not_le h512
      by_cases hbig : 512 < buf.length + b.length
      · rw [if_pos hbig, List.take_append_eq_append_take,
          List.take_append_eq_append_take, List.take_take,
          Nat.min_self]
      · rw [if_neg hbig]

theorem inferCTHeader_present {cfg : Config} {h : HeaderMap} {vs : List String}
    (hct : hGet h "Content-Type" = some vs) (buf0 : Option Bytes) (b : Bytes) :
    inferCTHeader cfg h buf0 b = h := by
  rw [inferCTHeader, hct]

theorem inferCTHeader_absent {cfg : Config} {h : HeaderMap}
    (hct : hGet h "Content-Type" = none) (buf0 : Option Bytes) (b : Bytes) :
    inferCTHeader cfg h buf0 b =
      hSet h "Content-Type" [cfg.sniff ((buf0.getD [] ++ b).take 512)] := by
  rw [inferCTHeader, hct, detectContentType, sniffArg_take]

/-- Content inference touches no header key other than `Content-Type`. -/
theorem inferCTHeader_other {cfg : Config} (h : HeaderMap) {k : String}
    (hk : k ≠ "Content-Type") (buf0 : Option Bytes) (b : Bytes) :
    hGet (inferCTHeader cfg h buf0 b) k = hGet h k := by
  rw [inferCTHeader]
  cases hct : hGet h "Content-Type" with
  | some vs => rfl
  | none => exact hGet_hSet_ne h hk _

/-! ### Small evaluation lemmas for the event observers -/

@[simp] theorem countWh_nil : countWh [] = 0 := rfl

@[simp] theorem countWh_wh (c : Nat) : countWh [Event.wh c] = 1 := rfl

@[simp] theorem countWh_plain (b : Bytes) : countWh [Event.plain b] = 0 := rfl

@[simp] theorem countWh_gz (b : Bytes) : countWh [Event.gzChunk b] = 0 := rfl

@[simp] theorem countWh_flush : countWh [Event.flushed] = 0 := rfl

@[simp] theorem plainBody_nil : plainBody [] = [] := rfl

@[simp] theorem plainBody_plain (b : Bytes) : plainBody [Event.plain b] = b := by
  simp [plainBody]

@[simp] theorem plainBody_gz (b : Bytes) : plainBody [Event.gzChunk b] = [] := rfl

@[simp] theorem plainBody_wh (c : Nat) : plainBody [Event.wh c] = [] := rfl

@[simp] theorem plainBody_flush : plainBody [Event.flushed] = [] := rfl

@[simp] theorem gzBody_nil : gzBody [] = [] := rfl

@[simp] theorem gzBody_gz (b : Bytes) : gzBody [Event.gzChunk b] = b := by
  simp [gzBody]

@[simp] theorem gzBody_plain (b : Bytes) : gzBody [Event.plain b] = [] := rfl

@[simp] theorem gzBody_wh (c : Nat) : gzBody [Event.wh c] = [] := rfl

@[simp] theorem gzBody_flush : gzBody [Event.flushed] = [] := rfl

attribute [simp] plainBody_append gzBody_append countWh_append

@[simp] theorem isWh_wh (c : Nat) : isWh (Event.wh c) = true := rfl

@[simp] theorem isWh_plain (b : Bytes) : isWh (Event.plain b) = false := rfl

@[simp] theorem isWh_gz (b : Bytes) : isWh (Event.gzChunk b) = false := rfl

@[simp] theorem isWh_flush : isWh Event.flushed = false := rfl

@[simp] theorem isBody_wh (c : Nat) : isBody (Event.wh c) = false := rfl

@[simp] theorem isBody_plain (b : Bytes) : isBody (Event.plain b) = true := rfl

@[simp] theorem isBody_gz (b : Bytes) : isBody (Event.gzChunk b) = true := rfl

@[simp] theorem isBody_flush : isBody Event.flushed = false := rfl

@[simp] theorem isFlushEvt_wh (c : Nat) : isFlushEvt (Event.wh c) = false := rfl

@[simp] theorem isFlushEvt_plain (b : Bytes) : isFlushEvt (Event.plain b) = false := rfl

@[simp] theorem isFlushEvt_gz (b : Bytes) : isFlushEvt (Event.gzChunk b) = false := rfl

@[simp] theorem isFlushEvt_flush : isFlushEvt Event.flushed = true := rfl

@[simp] theorem plainBody_cons_plain (b : Bytes) (t : List Event) :
    plainBody (Event.plain b :: t) = b ++ plainBody t := rfl

@[simp] theorem plainBody_cons_wh (c : Nat) (t : List Event) :
    plainBody (Event.wh c :: t) = plainBody t := rfl

@[simp] theorem plainBody_cons_gz (b : Bytes) (t : List Event) :
    plainBody (Event.gzChunk b :: t) = plainBody t := rfl

@[simp] theorem plainBody_cons_flush (t : List Event) :
    plainBody (Event.flushed :: t) = plainBody t := rfl

@[simp] theorem gzBody_cons_gz (b : Bytes) (t : List Event) :
    gzBody (Event.gzChunk b :: t) = b ++ gzBody t := rfl

@[simp] theorem gzBody_cons_wh (c : Nat) (t : List Event) :
    gzBody (Event.wh c :: t) = gzBody t := rfl

@[simp] theorem gzBody_cons_plain (b : Bytes) (t : List Event) :
    gzBody (Event.plain b :: t) = gzBody t := rfl

@[simp] theorem gzBody_cons_flush (t : List Event) :
    gzBody (Event.flushed :: t) = gzBody t := rfl

attribute [simp] countWh_cons

/-! ### Branch equations for `rwWrite` -/

theorem rwWrite_pass {cfg : Config} {s : RWState}
    (hst : s.state = WState.passThrough) (b : Bytes) :
    rwWrite cfg s b =
      some ({ s with events := s.events ++ [Event.plain b] }, b.length) := by
  rw [rwWrite, if_pos hst]

theorem rwWrite_gw {cfg : Config} {s : RWState}
    (hst : s.state ≠ WState.passThrough) (hgw : s.gw.isSome = true) (b : Bytes) :
    rwWrite cfg s b = some (gwWrite s b, b.length) := by
  rw [rwWrite, if_neg hst, if_pos hgw]

theorem rwWrite_buffer {cfg : Config} {s : RWState} {ws : Bytes}
    (hst : s.state = WState.initial) (hgw : s.gw = none) (hbuf : s.buf = some ws)
    {b : Bytes} (hlt : ws.length + b.length < cfg.minSize) :
    rwWrite cfg s b = some ({ s with buf := some (ws ++ b) }, b.length) := by
  simp [rwWrite, hst, hgw, hbuf, hlt]

theorem rwWrite_commit_pass {cfg : Config} {s : RWState} {ws b : Bytes}
    (hst : s.state = WState.initial) (hgw : s.gw = none) (hbuf : s.buf = some ws)
    (hge : ¬ ws.length + b.length < cfg.minSize)
    (hcc : (match cfg.canCompress with
            | some cc => !cc (inferContentType cfg s b).header
            | none => false) = true) :
    rwWrite cfg s b =
      some ({ startPassThrough (inferContentType cfg s b) with
                events := (startPassThrough (inferContentType cfg s b)).events ++
                  [Event.plain b] }, b.length) := by
  simp [rwWrite, hst, hgw, hbuf, hge, hcc]

theorem rwWrite_commit_gzip {cfg : Config} {s : RWState} {ws b : Bytes}
    (hst : s.state = WState.initial) (hgw : s.gw = none) (hbuf : s.buf = some ws)
    (hge : ¬ ws.length + b.length < cfg.minSize)
    (hcc : (match cfg.canCompress with
            | some cc => !cc (inferContentType cfg s b).header
            | none => false) = false) :
    rwWrite cfg s b =
      some (gwWrite (startGzip { inferContentType cfg s b with
              state := WState.compress }) b, b.length) := by
  simp [rwWrite, hst, hgw, hbuf, hge, hcc]

/-! ### Projection lemmas for the transition helpers -/

@[simp] theorem inferCT_events (cfg : Config) (s : RWState) (b : Bytes) :
    (inferContentType cfg s b).events = s.events := rfl

@[simp] theorem inferCT_buf (cfg : Config) (s : RWState) (b : Bytes) :
    (inferContentType cfg s b).buf = s.buf := rfl

@[simp] theorem inferCT_code (cfg : Config) (s : RWState) (b : Bytes) :
    (inferContentType cfg s b).code = s.code := rfl

@[simp] theorem inferCT_gw (cfg : Config) (s : RWState) (b : Bytes) :
    (inferContentType cfg s b).gw = s.gw := rfl

@[simp] theorem inferCT_state (cfg : Config) (s : RWState) (b : Bytes) :
    (inferContentType cfg s b).state = s.state := rfl

@[simp] theorem inferCT_pool (cfg : Config) (s : RWState) (b : Bytes) :
    (inferContentType cfg s b).pool = s.pool := rfl

@[simp] theorem inferCT_whCount (cfg : Config) (s : RWState) (b : Bytes) :
    (inferContentType cfg s b).whCount = s.whCount := rfl

@[simp] theorem inferCT_inferLog (cfg : Config) (s : RWState) (b : Bytes) :
    (inferContentType cfg s b).inferLog = s.inferLog ++ [s.whCount] := rfl

@[simp] theorem inferCT_header (cfg : Config) (s : RWState) (b : Bytes) :
    (inferContentType cfg s b).header = inferCTHeader cfg s.header s.buf b := rfl

@[simp] theorem startPass_events (s : RWState) :
    (startPassThrough s).events = (s.events ++ [Event.wh s.code]) ++
      (if (s.buf.getD []).length ≠ 0 then [Event.plain (s.buf.getD [])] else []) := rfl

@[simp] theorem startPass_buf (s : RWState) : (startPassThrough s).buf = none := rfl

@[simp] theorem startPass_state (s : RWState) :
    (startPassThrough s).state = WState.passThrough := rfl

@[simp] theorem startPass_gw (s : RWState) : (startPassThrough s).gw = s.gw := rfl

@[simp] theorem startPass_header (s : RWState) :
    (startPassThrough s).header = s.header := rfl

@[simp] theorem startPass_code (s : RWState) : (startPassThrough s).code = s.code := rfl

@[simp] theorem startPass_whCount (s : RWState) :
    (startPassThrough s).whCount = s.whCount + 1 := rfl

@[simp] theorem startPass_inferLog (s : RWState) :
    (startPassThrough s).inferLog = s.inferLog := rfl

@[simp] theorem startPass_pool (s : RWState) : (startPassThrough s).pool = s.pool := rfl

@[simp] theorem startGzip_events (s : RWState) :
    (startGzip s).events = (s.events ++ [Event.wh s.code]) ++
      (if (s.buf.getD []).length ≠ 0 then [Event.gzChunk (s.buf.getD [])] else []) := rfl

@[simp] theorem startGzip_buf (s : RWState) : (startGzip s).buf = none := rfl

@[simp] theorem startGzip_state (s : RWState) : (startGzip s).state = s.state := rfl

@[simp] theorem startGzip_gw (s : RWState) :
    (startGzip s).gw = some ⟨(poolGet s.pool).1, s.buf.getD []⟩ := rfl

@[simp] theorem startGzip_header (s : RWState) :
    (startGzip s).header =
      hDel (hSet s.header "Content-Encoding" ["gzip"]) "Content-Length" := rfl

@[simp] theorem startGzip_code (s : RWState) : (startGzip s).code = s.code := rfl

@[simp] theorem startGzip_whCount (s : RWState) :
    (startGzip s).whCount = s.whCount + 1 := rfl

@[simp] theorem startGzip_inferLog (s : RWState) :
    (startGzip s).inferLog = s.inferLog := rfl

@[simp] theorem startGzip_pool (s : RWState) :
    (startGzip s).pool = (poolGet s.pool).2 := rfl

theorem gwWrite_of_gw {s : RWState} {g : GzWriter} (h : s.gw = some g) (b : Bytes) :
    gwWrite s b = { s with
      events := s.events ++ [Event.gzChunk b],
      gw := some ⟨g.id, g.fed ++ b⟩ } := by
  rw [gwWrite, h]

/-! ### Commit lemmas: a threshold-crossing write establishes `postC` -/

theorem canCompress_ne_none_of_reject {cfg : Config} {h : HeaderMap}
    (hcc : (match cfg.canCompress with
            | some cc => !cc h
            | none => false) = true) : cfg.canCompress ≠ none := by
  intro hnone
  rw [hnone] at hcc
  exact Bool.false_ne_true hcc

theorem wellOrdered_flush_any {evs : List Event} (h : evs.all isFlushEvt = true)
    (c : Nat) (rest : List Event) :
    wellOrdered ((evs ++ [Event.wh c]) ++ rest) = true := by
  rw [List.append_assoc, List.singleton_append]
  exact wellOrdered_commit h c rest

theorem wellOrdered_flush_any2 {evs : List Event} (h : evs.all isFlushEvt = true)
    (c : Nat) (rest1 rest2 : List Event) :
    wellOrdered (((evs ++ [Event.wh c]) ++ rest1) ++ rest2) = true := by
  rw [List.append_assoc (evs ++ [Event.wh c]) rest1 rest2]
  exact wellOrdered_flush_any h c (rest1 ++ rest2)

theorem commit_pass_postC {cfg : Config} {s : RWState} {ws b : Bytes}
    (hpre : preC cfg s ws)
    (hcc : (match cfg.canCompress with
            | some cc => !cc (inferContentType cfg s b).header
            | none => false) = true) :
    postC cfg { startPassThrough (inferContentType cfg s b) with
        events := (startPassThrough (inferContentType cfg s b)).events ++
          [Event.plain b] } (ws ++ b) := by
  obtain ⟨hst, hgw, hbuf, hev, hil, hwc, hlen⟩ := hpre
  have hccne := canCompress_ne_none_of_reject hcc
  have hc0 := flushOnly_countWh hev
  have hp0 := flushOnly_plainBody hev
  have hg0 := flushOnly_gzBody hev
  refine ⟨by simp, ?_, ?_, by simp [hil, hwc], Or.inl ⟨by simp, by simp [hgw], ?_, ?_, hccne⟩⟩
  · simp [hbuf, hc0, apply_ite countWh]
  · simp only [startPass_events, inferCT_events, inferCT_code, inferCT_buf]
    exact wellOrdered_flush_any2 hev _ _ _
  · by_cases hws : ws.length = 0
    · have hnil : ws = [] := List.length_eq_zero.mp hws
      subst hnil
      simp [hbuf, hp0]
    · simp [hbuf, hp0, hws]
  · simp [hbuf, hg0, apply_ite gzBody]

theorem commit_gzip_postC {cfg : Config} {s : RWState} {ws b : Bytes}
    (hpre : preC cfg s ws) :
    postC cfg (gwWrite (startGzip { inferContentType cfg s b with
        state := WState.compress }) b) (ws ++ b) := by
  obtain ⟨hst, hgw, hbuf, hev, hil, hwc, hlen⟩ := hpre
  have hc0 := flushOnly_countWh hev
  have hp0 := flushOnly_plainBody hev
  have hg0 := flushOnly_gzBody hev
  have hgws : (startGzip { inferContentType cfg s b with
      state := WState.compress }).gw = some ⟨(poolGet s.pool).1, ws⟩ := by
    simp [hbuf]
  rw [gwWrite_of_gw hgws]
  refine ⟨by simp, ?_, ?_, by simp [hil, hwc],
    Or.inr ⟨by simp, ⟨⟨(poolGet s.pool).1, ws ++ b⟩, by simp, rfl⟩, ?_, ?_⟩⟩
  · simp [hbuf, hc0, apply_ite countWh]
  · simp only [startGzip_events, inferCT_events, inferCT_code, inferCT_buf]
    exact wellOrdered_flush_any2 hev _ _ _
  · by_cases hws : ws.length = 0
    · have hnil : ws = [] := List.length_eq_zero.mp hws
      subst hnil
      simp [hbuf, hg0]
    · simp [hbuf, hg0, hws]
  · simp [hbuf, hp0, apply_ite plainBody]

/-! ### Preservation of the invariant by each handler operation -/

theorem postC_write {cfg : Config} {s : RWState} {ws : Bytes} (h : postC cfg s ws)
    (b : Bytes) :
    ∃ s1, rwWrite cfg s b = some (s1, b.length) ∧ postC cfg s1 (ws ++ b) := by
  obtain ⟨hbuf, hcw, hwo, hil, hcase⟩ := h
  have hwh1 : 1 ≤ countWh s.events := le_of_eq hcw.symm
  rcases hcase with ⟨hst, hgw, hpb, hgb, hne⟩ | ⟨hst, ⟨g, hgw, hfed⟩, hgb, hpb⟩
  · refine ⟨_, rwWrite_pass hst b, hbuf, by simp [hcw], ?_, hil,
      Or.inl ⟨hst, hgw, by simp [hpb], by simp [hgb], hne⟩⟩
    show wellOrdered (s.events ++ [Event.plain b]) = true
    rw [wellOrdered_append_of_wh hwh1]
    exact hwo
  · have hstne : s.state ≠ WState.passThrough := by simp [hst]
    have hgsome : s.gw.isSome = true := by rw [hgw]; rfl
    refine ⟨_, rwWrite_gw hstne hgsome b, ?_⟩
    rw [gwWrite_of_gw hgw]
    refine ⟨hbuf, by simp [hcw], ?_, hil,
      Or.inr ⟨hst, ⟨⟨g.id, g.fed ++ b⟩, rfl, by rw [hfed]⟩,
        by simp [hgb], by simp [hpb]⟩⟩
    show wellOrdered (s.events ++ [Event.gzChunk b]) = true
    rw [wellOrdered_append_of_wh hwh1]
    exact hwo

theorem postC_append_flush {cfg : Config} {s : RWState} {ws : Bytes}
    (h : postC cfg s ws) :
    postC cfg { s with events := s.events ++ [Event.flushed] } ws := by
  obtain ⟨hbuf, hcw, hwo, hil, hcase⟩ := h
  have hwh1 : 1 ≤ countWh s.events := le_of_eq hcw.symm
  refine ⟨hbuf, by simp [hcw], ?_, hil, ?_⟩
  · show wellOrdered (s.events ++ [Event.flushed]) = true
    rw [wellOrdered_append_of_wh hwh1]
    exact hwo
  · rcases hcase with ⟨hst, hgw, hpb, hgb, hne⟩ | ⟨hst, hg, hgb, hpb⟩
    · exact Or.inl ⟨hst, hgw, by simp [hpb], by simp [hgb], hne⟩
    · exact Or.inr ⟨hst, hg, by simp [hgb], by simp [hpb]⟩

theorem postC_append_gznil {cfg : Config} {s : RWState} {ws : Bytes}
    (h : postC cfg s ws) :
    postC cfg { s with events := s.events ++ [Event.gzChunk []] } ws := by
  obtain ⟨hbuf, hcw, hwo, hil, hcase⟩ := h
  have hwh1 : 1 ≤ countWh s.events := le_of_eq hcw.symm
  refine ⟨hbuf, by simp [hcw], ?_, hil, ?_⟩
  · show wellOrdered (s.events ++ [Event.gzChunk []]) = true
    rw [wellOrdered_append_of_wh hwh1]
    exact hwo
  · rcases hcase with ⟨hst, hgw, hpb, hgb, hne⟩ | ⟨hst, hg, hgb, hpb⟩
    · exact Or.inl ⟨hst, hgw, by simp [hpb], by simp [hgb], hne⟩
    · exact Or.inr ⟨hst, hg, by simp [hgb], by simp [hpb]⟩

theorem postC_flush {cfg : Config} {s : RWState} {ws : Bytes} (h : postC cfg s ws) :
    postC cfg (rwFlush cfg s) ws := by
  obtain ⟨hd, ev, cd, bf, gww, st, pl, wc, il⟩ := s
  simp only [rwFlush]
  cases gww with
  | none =>
    split
    · exact postC_append_flush h
    · exact h
  | some g =>
    split
    · exact postC_append_flush (postC_append_gznil h)
    · exact postC_append_gznil h

theorem preC_append_flush {cfg : Config} {s : RWState} {ws : Bytes}
    (h : preC cfg s ws) :
    preC cfg { s with events := s.events ++ [Event.flushed] } ws := by
  obtain ⟨hst, hgw, hbuf, hev, hil, hwc, hlen⟩ := h
  exact ⟨hst, hgw, hbuf, by simp [hev], hil, hwc, hlen⟩

theorem preC_flush {cfg : Config} {s : RWState} {ws : Bytes} (h : preC cfg s ws) :
    preC cfg (rwFlush cfg s) ws := by
  have hgw := h.2.1
  obtain ⟨hd, ev, cd, bf, gww, st, pl, wc, il⟩ := s
  simp only [rwFlush]
  cases gww with
  | none =>
    split
    · exact preC_append_flush h
    · exact h
  | some g => exact absurd hgw (by simp)

theorem stepInv {cfg : Config} {s s1 : RWState} {ws : Bytes} {op : HOp}
    (h : Inv cfg s ws) (hstep : step cfg s op = some s1) :
    Inv cfg s1 (ws ++ opWrites op) := by
  cases op with
  | writeHeader c =>
    simp only [step] at hstep
    injection hstep with h1
    subst h1
    have he : ws ++ opWrites (HOp.writeHeader c) = ws := by simp [opWrites]
    rw [he]
    exact h
  | setHeader k v =>
    simp only [step] at hstep
    injection hstep with h1
    subst h1
    have he : ws ++ opWrites (HOp.setHeader k v) = ws := by simp [opWrites]
    rw [he]
    exact h
  | flush =>
    simp only [step] at hstep
    injection hstep with h1
    subst h1
    have he : ws ++ opWrites HOp.flush = ws := by simp [opWrites]
    rw [he]
    cases h with
    | inl hp => exact Or.inl (preC_flush hp)
    | inr hp => exact Or.inr (postC_flush hp)
  | write b =>
    simp only [step] at hstep
    cases h with
    | inl hp =>
      obtain ⟨hst, hgw, hbuf, hev, hil, hwc, hlen⟩ := hp
      by_cases hlt : ws.length + b.length < cfg.minSize
      · rw [rwWrite_buffer hst hgw hbuf hlt] at hstep
        simp only [Option.map_some'] at hstep
        injection hstep with h1
        subst h1
        refine Or.inl ⟨hst, hgw, rfl, hev, hil, hwc, Or.inl (by simpa using hlt)⟩
      · cases hcc : (match cfg.canCompress with
            | some cc => !cc (inferContentType cfg s b).header
            | none => false) with
        | true =>
          rw [rwWrite_commit_pass hst hgw hbuf hlt hcc] at hstep
          simp only [Option.map_some'] at hstep
          injection hstep with h1
          subst h1
          exact Or.inr (commit_pass_postC ⟨hst, hgw, hbuf, hev, hil, hwc, hlen⟩ hcc)
        | false =>
          rw [rwWrite_commit_gzip hst hgw hbuf hlt hcc] at hstep
          simp only [Option.map_some'] at hstep
          injection hstep with h1
          subst h1
          exact Or.inr (commit_gzip_postC ⟨hst, hgw, hbuf, hev, hil, hwc, hlen⟩)
    | inr hp =>
      obtain ⟨s2, heq, hpost⟩ := postC_write hp b
      rw [heq] at hstep
      simp only [Option.map_some'] at hstep
      injection hstep with h1
      subst h1
      exact Or.inr hpost

theorem runInv {cfg : Config} {ws : Bytes} {s s1 : RWState} {ops : List HOp}
    (h : Inv cfg s ws) (hrun : run cfg s ops = some s1) :
    Inv cfg s1 (ws ++ writesOf ops) := by
  induction ops generalizing s ws with
  | nil =>
    rw [run] at hrun
    injection hrun with h1
    subst h1
    simpa [writesOf] using h
  | cons op t ih =>
    rw [run] at hrun
    cases hstep : step cfg s op with
    | none =>
      rw [hstep] at hrun
      exact Option.noConfusion hrun
    | some s2 =>
      rw [hstep] at hrun
      have hrun2 : run cfg s2 t = some s1 := hrun
      have h3 := ih (stepInv h hstep) hrun2
      simpa [writesOf, List.append_assoc] using h3

/-! ### Finalization lemmas -/

theorem closePre_obs {cfg : Config} {s : RWState} {ws : Bytes} (h : preC cfg s ws) :
    (rwClose cfg s).2 = none ∧
    plainBody (rwClose cfg s).1.events = ws ∧
    gzBody (rwClose cfg s).1.events = [] ∧
    countWh (rwClose cfg s).1.events = 1 ∧
    wellOrdered (rwClose cfg s).1.events = true ∧
    (rwClose cfg s).1.inferLog = [0] ∧
    (rwClose cfg s).1.header = inferCTHeader cfg s.header s.buf [] ∧
    (rwClose cfg s).1.pool = s.pool := by
  obtain ⟨hst, hgw, hbuf, hev, hil, hwc, hlen⟩ := h
  have hp0 := flushOnly_plainBody hev
  have hg0 := flushOnly_gzBody hev
  have hc0 := flushOnly_countWh hev
  simp only [rwClose, hbuf, inferCT_gw, hgw]
  refine ⟨trivial, by simp [hp0], by simp [hg0], by simp [hc0], ?_,
    by simp [hil, hwc], by simp [hbuf], by simp⟩
  simp only [inferCT_events, inferCT_code]
  exact wellOrdered_flush_any hev _ _

theorem closePost_obs {cfg : Config} {s : RWState} {ws : Bytes} (h : postC cfg s ws) :
    (rwClose cfg s).2 = none ∧
    (rwClose cfg s).1.inferLog = [0] ∧
    countWh (rwClose cfg s).1.events = 1 ∧
    wellOrdered (rwClose cfg s).1.events = true ∧
    ((plainBody (rwClose cfg s).1.events = ws ∧
        gzBody (rwClose cfg s).1.events = [] ∧ cfg.canCompress ≠ none) ∨
      (gzBody (rwClose cfg s).1.events = ws ∧
        plainBody (rwClose cfg s).1.events = [])) := by
  obtain ⟨hbuf, hcw, hwo, hil, hcase⟩ := h
  have hwh1 : 1 ≤ countWh s.events := le_of_eq hcw.symm
  rcases hcase with ⟨hst, hgw, hpb, hgb, hne⟩ | ⟨hst, ⟨g, hgw, hfed⟩, hgb, hpb⟩
  · simp only [rwClose, hbuf, hgw]
    exact ⟨trivial, hil, hcw, hwo, Or.inl ⟨hpb, hgb, hne⟩⟩
  · simp only [rwClose, hbuf, hgw]
    refine ⟨trivial, hil, by simp [hcw], ?_, Or.inr ⟨by simp [hgb], by simp [hpb]⟩⟩
    show wellOrdered (s.events ++ [Event.gzChunk []]) = true
    rw [wellOrdered_append_of_wh hwh1]
    exact hwo

/-! ### Small-body runs stay buffered (for the below-threshold claim) -/

/-- The handler never sets `Content-Encoding` itself. -/
def noSetCE (ops : List HOp) : Prop :=
  ∀ v, HOp.setHeader "Content-Encoding" v ∉ ops

theorem rwFlush_header (cfg : Config) (s : RWState) :
    (rwFlush cfg s).header = s.header := by
  obtain ⟨hd, ev, cd, bf, gww, st, pl, wc, il⟩ := s
  simp only [rwFlush]
  cases gww <;> split <;> rfl

theorem runPre {cfg : Config} {ops : List HOp} {s s1 : RWState} {ws : Bytes}
    (h : preC cfg s ws)
    (hsz : ws.length + (writesOf ops).length < cfg.minSize)
    (hce : noSetCE ops)
    (hrun : run cfg s ops = some s1) :
    preC cfg s1 (ws ++ writesOf ops) ∧
    hGet s1.header "Content-Encoding" = hGet s.header "Content-Encoding" := by
  induction ops generalizing s ws with
  | nil =>
    rw [run] at hrun
    injection hrun with h1
    subst h1
    exact ⟨by simpa [writesOf] using h, rfl⟩
  | cons op t ih =>
    rw [run] at hrun
    have hcet : noSetCE t := fun v hv => hce v (List.mem_cons_of_mem _ hv)
    cases op with
    | write b =>
      obtain ⟨hst, hgw, hbuf, hev, hil, hwc, hlen⟩ := h
      have hlt : ws.length + b.length < cfg.minSize := by
        simp only [writesOf, opWrites, List.length_append] at hsz
        omega
      have hstep : step cfg s (HOp.write b) =
          some { s with buf := some (ws ++ b) } := by
        simp only [step, rwWrite_buffer hst hgw hbuf hlt, Option.map_some']
      rw [hstep] at hrun
      have hrun2 : run cfg { s with buf := some (ws ++ b) } t = some s1 := hrun
      have hpre2 : preC cfg { s with buf := some (ws ++ b) } (ws ++ b) :=
        ⟨hst, hgw, rfl, hev, hil, hwc, Or.inl (by simpa using hlt)⟩
      have hsz2 : (ws ++ b).length + (writesOf t).length < cfg.minSize := by
        simp only [writesOf, opWrites, List.length_append] at hsz ⊢
        omega
      have hres := ih hpre2 hsz2 hcet hrun2
      refine ⟨by simpa [writesOf, List.append_assoc] using hres.1, hres.2⟩
    | writeHeader c =>
      have hstep : step cfg s (HOp.writeHeader c) = some (rwWriteHeader s c) := rfl
      rw [hstep] at hrun
      have hrun2 : run cfg (rwWriteHeader s c) t = some s1 := hrun
      have hres := ih (show preC cfg (rwWriteHeader s c) ws from h)
        (by simpa [writesOf, opWrites] using hsz) hcet hrun2
      exact ⟨by simpa [writesOf, opWrites] using hres.1, hres.2⟩
    | setHeader k v =>
      have hkne : "Content-Encoding" ≠ k := by
        intro hk
        exact hce v (by rw [hk]; exact List.mem_cons_self _ _)
      have hstep : step cfg s (HOp.setHeader k v) =
          some { s with header := hSet s.header k v } := rfl
      rw [hstep] at hrun
      have hrun2 : run cfg { s with header := hSet s.header k v } t = some s1 := hrun
      have hres := ih (show preC cfg { s with header := hSet s.header k v } ws from h)
        (by simpa [writesOf, opWrites] using hsz) hcet hrun2
      refine ⟨by simpa [writesOf, opWrites] using hres.1, ?_⟩
      rw [hres.2]
      exact hGet_hSet_ne s.header hkne v
    | flush =>
      have hstep : step cfg s HOp.flush = some (rwFlush cfg s) := rfl
      rw [hstep] at hrun
      have hrun2 : run cfg (rwFlush cfg s) t = some s1 := hrun
      have hres := ih (preC_flush h)
        (by simpa [writesOf, opWrites] using hsz) hcet hrun2
      refine ⟨by simpa [writesOf, opWrites] using hres.1, ?_⟩
      rw [hres.2, rwFlush_header]

/-! ### After commitment the saved status code is dead (code independence) -/

/-- Forget the saved status code (the only field a post-commitment
`WriteHeader` can change). -/
def eraseCode (s : RWState) : RWState := { s with code := 0 }

theorem rwFlush_buf (cfg : Config) (s : RWState) : (rwFlush cfg s).buf = s.buf := by
  obtain ⟨hd, ev, cd, bf, gww, st, pl, wc, il⟩ := s
  simp only [rwFlush]
  cases gww <;> split <;> rfl

theorem rwFlush_code (cfg : Config) (s : RWState) (c : Nat) :
    rwFlush cfg { s with code := c } = { rwFlush cfg s with code := c } := by
  obtain ⟨hd, ev, cd, bf, gww, st, pl, wc, il⟩ := s
  simp only [rwFlush]
  cases gww <;> split <;> rfl

theorem rwWrite_none {cfg : Config} {s : RWState}
    (hst : s.state ≠ WState.passThrough) (hgw : s.gw = none)
    (hb : s.buf = none) (b : Bytes) : rwWrite cfg s b = none := by
  simp [rwWrite, hst, hgw, hb]

theorem rwWrite_code_none {cfg : Config} {s : RWState} {b : Bytes} (c : Nat)
    (hb : s.buf = none) :
    (rwWrite cfg { s with code := c } b = none ∧ rwWrite cfg s b = none) ∨
    (∃ u, rwWrite cfg s b = some (u, b.length) ∧ u.buf = none ∧
      rwWrite cfg { s with code := c } b = some ({ u with code := c }, b.length)) := by
  obtain ⟨hd, ev, cd, bf, gww, st, pl, wc, il⟩ := s
  have hb2 : bf = none := hb
  subst hb2
  by_cases hst : st = WState.passThrough
  · right
    subst hst
    exact ⟨_, rwWrite_pass rfl b, rfl, rwWrite_pass rfl b⟩
  · cases gww with
    | none =>
      left
      exact ⟨rwWrite_none hst rfl rfl b, rwWrite_none hst rfl rfl b⟩
    | some g =>
      right
      refine ⟨_, rwWrite_gw
        (s := ⟨hd, ev, cd, none, some g, st, pl, wc, il⟩) hst rfl b, rfl, ?_⟩
      exact rwWrite_gw (s := ⟨hd, ev, c, none, some g, st, pl, wc, il⟩) hst rfl b

theorem step_code_cases {cfg : Config} {s : RWState} (hb : s.buf = none)
    (c : Nat) (op : HOp) :
    (step cfg { s with code := c } op = none ∧ step cfg s op = none) ∨
    (∃ u d, step cfg s op = some u ∧ u.buf = none ∧
      step cfg { s with code := c } op = some { u with code := d }) := by
  cases op with
  | writeHeader c1 => exact Or.inr ⟨rwWriteHeader s c1, c1, rfl, hb, rfl⟩
  | setHeader k v => exact Or.inr ⟨_, c, rfl, hb, rfl⟩
  | flush =>
    refine Or.inr ⟨rwFlush cfg s, c, rfl, ?_, ?_⟩
    · rw [rwFlush_buf]
      exact hb
    · simp only [step, rwFlush_code]
  | write b =>
    rcases @rwWrite_code_none cfg s b c hb with ⟨h1, h2⟩ | ⟨u, h2, hub, h1⟩
    · left
      constructor <;> simp only [step, h1, h2, Option.map_none']
    · right
      refine ⟨u, c, ?_, hub, ?_⟩
      · simp only [step, h2, Option.map_some']
      · simp only [step, h1, Option.map_some']

theorem run_code_rel {cfg : Config} {ops : List HOp} {s : RWState}
    (hb : s.buf = none) (c : Nat) :
    (run cfg { s with code := c } ops = none ∧ run cfg s ops = none) ∨
    (∃ u d, run cfg s ops = some u ∧ u.buf = none ∧
      run cfg { s with code := c } ops = some { u with code := d }) := by
  induction ops generalizing s c with
  | nil => exact Or.inr ⟨s, c, rfl, hb, rfl⟩
  | cons op t ih =>
    rcases step_code_cases hb c op with ⟨h1, h2⟩ | ⟨u, d, h2, hub, h1⟩
    · left
      rw [run, run, h1, h2]
      exact ⟨rfl, rfl⟩
    · rw [run, run, h1, h2]
      exact ih hub d

theorem rwClose_code {cfg : Config} {s : RWState} (c : Nat) (hb : s.buf = none) :
    rwClose cfg { s with code := c } =
      ({ (rwClose cfg s).1 with code := c }, (rwClose cfg s).2) := by
  have hb2 := hb
  obtain ⟨hd, ev, cd, bf, gww, st, pl, wc, il⟩ := s
  simp only at hb2
  subst hb2
  simp only [rwClose]
  cases gww <;> rfl

/-! ## The claims -/

/-- C1: for every response whose total body size is at least the configured
minimum size, served through the decision writer installed when the client's
Accept-Encoding makes gzip acceptable (default configuration: no
compressibility predicate), decompressing the bytes written to the underlying
response writer — the concatenated decompressed contents of the compressed
stream — yields exactly the concatenation of the byte slices the wrapped
handler passed to Write, in call order; no uncompressed body byte reaches the
underlying writer, and finalization reports no error. -/
theorem C1_gzip_roundtrip (cfg : Config) (h0 : HeaderMap) (pool : GzPool)
    (ops : List HOp) (sFin : RWState) (err : Option String)
    (hcc : cfg.canCompress = none)
    (hsz : cfg.minSize ≤ (writesOf ops).length)
    (hrun : runClose cfg (initState h0 pool) ops = some (sFin, err)) :
    gzBody sFin.events = writesOf ops ∧ plainBody sFin.events = [] ∧
    err = none := by
  rw [runClose] at hrun
  cases hr : run cfg (initState h0 pool) ops with
  | none =>
    rw [hr] at hrun
    exact Option.noConfusion hrun
  | some s1 =>
    rw [hr] at hrun
    simp only [Option.map_some'] at hrun
    injection hrun with h1
    have hinv := runInv (initInv cfg h0 pool) hr
    rw [List.nil_append] at hinv
    cases hinv with
    | inl hp =>
      obtain ⟨hst, hgw, hbuf, hev, hil, hwc, hlen⟩ := hp
      cases hlen with
      | inl hlt => exact absurd hlt (Nat.not_lt.mpr hsz)
      | inr hnil =>
        have hp2 : preC cfg s1 (writesOf ops) :=
          ⟨hst, hgw, hbuf, hev, hil, hwc, Or.inr hnil⟩
        have hobs := closePre_obs hp2
        rw [h1] at hobs
        rw [hnil]
        exact ⟨hobs.2.2.1, by rw [hobs.2.1, hnil], hobs.1⟩
    | inr hp =>
      have hobs := closePost_obs hp
      rw [h1] at hobs
      rcases hobs.2.2.2.2 with ⟨hpb, hgb, hne⟩ | ⟨hgb, hpb⟩
      · exact absurd hcc hne
      · exact ⟨hgb, hpb, hobs.1⟩

/-- Default-style configuration for the concrete witnesses: threshold 1, no
compressibility predicate, underlying writer without Flusher. -/
def cfgW1 : Config := ⟨1, none, fun _ => "text/plain; charset=utf-8", false⟩

/-- The final state of a one-write request (body `[7]`, threshold 1) under
`cfgW1`. -/
def sW1 : RWState :=
  { header := [("Vary", ["Accept-Encoding"]),
      ("Content-Type", ["text/plain; charset=utf-8"]),
      ("Content-Encoding", ["gzip"])]
    events := [Event.wh 200, Event.gzChunk [7], Event.gzChunk []]
    code := 200
    buf := none
    gw := none
    state := WState.compress
    pool := ⟨[0], 1⟩
    whCount := 1
    inferLog := [0] }

theorem C1_gzip_roundtrip_witness :
    gzBody sW1.events = writesOf [HOp.write [7]] ∧
    plainBody sW1.events = [] ∧ (none : Option String) = none :=
  C1_gzip_roundtrip cfgW1 [] ⟨[], 0⟩ [HOp.write [7]] sW1 none rfl
    (by decide) (by decide)

/-- C2: for every response whose total body size is strictly below the
configured minimum size (and a handler that does not itself set
Content-Encoding), nothing of the body reaches the underlying writer before
finalization; at finalization the body is written uncompressed and verbatim,
no compressed byte is ever emitted, the close reports no error, and if the
response began without a Content-Encoding header none is ever set. -/
theorem C2_small_uncompressed (cfg : Config) (h0 : HeaderMap) (pool : GzPool)
    (ops : List HOp) (s1 sFin : RWState) (err : Option String)
    (hsz : (writesOf ops).length < cfg.minSize)
    (hce : noSetCE ops)
    (hrun : run cfg (initState h0 pool) ops = some s1)
    (hclose : rwClose cfg s1 = (sFin, err)) :
    s1.events.all (fun e => !isBody e) = true ∧
    plainBody sFin.events = writesOf ops ∧
    gzBody sFin.events = [] ∧
    err = none ∧
    (hGet h0 "Content-Encoding" = none →
      hGet sFin.header "Content-Encoding" = none) := by
  have hpre0 : preC cfg (initState h0 pool) [] :=
    ⟨rfl, rfl, rfl, rfl, rfl, rfl, Or.inr rfl⟩
  have hsz0 : ([] : Bytes).length + (writesOf ops).length < cfg.minSize := by
    simpa using hsz
  obtain ⟨hpre1, hceq⟩ := runPre hpre0 hsz0 hce hrun
  rw [List.nil_append] at hpre1
  have hobs := closePre_obs hpre1
  rw [hclose] at hobs
  refine ⟨?_, hobs.2.1, hobs.2.2.1, hobs.1, ?_⟩
  · have hev := hpre1.2.2.2.1
    rw [List.all_eq_true] at hev ⊢
    intro x hx
    have hfx := hev x hx
    cases x with
    | wh c => simp [isFlushEvt] at hfx
    | plain b => simp [isFlushEvt] at hfx
    | gzChunk b => simp [isFlushEvt] at hfx
    | flushed => simp [isBody]
  · intro hnone
    have hhd : sFin.header = inferCTHeader cfg s1.header s1.buf [] :=
      hobs.2.2.2.2.2.2.1
    rw [hhd, inferCTHeader_other _ (by decide) _ _, hceq]
    have hini : (initState h0 pool).header = addVary h0 := rfl
    rw [hini, addVary, hGet_hSet_ne _ (by decide) _]
    exact hnone

/-- Below-threshold configuration for the concrete witnesses: threshold 13. -/
def cfgW2 : Config := ⟨13, none, fun _ => "text/plain; charset=utf-8", false⟩

/-- The state of a 4-byte-body request under `cfgW2` when the handler
returns, still buffering. -/
def s1W2 : RWState :=
  { header := [("Vary", ["Accept-Encoding"])]
    events := []
    code := 200
    buf := some [1, 2, 3, 4]
    gw := none
    state := WState.initial
    pool := ⟨[], 0⟩
    whCount := 0
    inferLog := [] }

/-- The final state of the 4-byte-body request under `cfgW2`. -/
def sFinW2 : RWState :=
  { header := [("Vary", ["Accept-Encoding"]),
      ("Content-Type", ["text/plain; charset=utf-8"])]
    events := [Event.wh 200, Event.plain [1, 2, 3, 4]]
    code := 200
    buf := none
    gw := none
    state := WState.initial
    pool := ⟨[], 0⟩
    whCount := 1
    inferLog := [0] }

theorem C2_small_uncompressed_witness :
    plainBody sFinW2.events = writesOf [HOp.write [1, 2, 3, 4]] ∧
    gzBody sFinW2.events = [] ∧
    hGet sFinW2.header "Content-Encoding" = none := by
  have h := C2_small_uncompressed cfgW2 [] ⟨[], 0⟩ [HOp.write [1, 2, 3, 4]]
    s1W2 sFinW2 none (by decide) (by intro v hv; simp at hv) (by decide) (by decide)
  exact ⟨h.2.1, h.2.2.1, h.2.2.2.2 rfl⟩

/-- Flush-capable configuration used for the flush claim. -/
def cfgW3 : Config := ⟨512, none, fun _ => "text/plain; charset=utf-8", true⟩

/-- The state after a 3-byte write (below the 512 threshold) followed by a
handler Flush under `cfgW3`: the flush was forwarded, but the writer is still
in the Initial state, the bytes are still buffered and no header was sent. -/
def sC3 : RWState :=
  { header := [("Vary", ["Accept-Encoding"])]
    events := [Event.flushed]
    code := 200
    buf := some [1, 2, 3]
    gw := none
    state := WState.initial
    pool := ⟨[], 0⟩
    whCount := 0
    inferLog := [] }

/-- C3 counterexample: a handler-requested Flush while still buffering below
the threshold does NOT force a path commitment.  After `write [1,2,3]` (three
bytes, threshold 512) and `Flush`, the decision writer is still in the
Initial state, the three bytes are still in the buffer, and no status line
was emitted to the underlying writer — the flush was merely forwarded. -/
theorem C3_flush_counterexample :
    run cfgW3 (initState [] ⟨[], 0⟩) [HOp.write [1, 2, 3], HOp.flush] =
      some sC3 ∧
    sC3.buf = some [1, 2, 3] ∧
    sC3.state = WState.initial ∧
    countWh sC3.events = 0 := by decide

/-- C3 amended: a Flush on the decision writer never commits a path.  With no
compressor acquired (in particular in the Initial state), it only forwards a
flush to the underlying writer when that writer supports flushing, leaving
the buffer, the state, the saved code and the headers untouched. -/
theorem C3_flush_amended (cfg : Config) (s : RWState) (hgw : s.gw = none) :
    rwFlush cfg s =
      (if cfg.uFlush then { s with events := s.events ++ [Event.flushed] }
       else s) := by
  simp only [rwFlush, hgw]

theorem C3_flush_amended_witness :
    rwFlush cfgW3 sC3 =
      (if cfgW3.uFlush then { sC3 with events := sC3.events ++ [Event.flushed] }
       else sC3) :=
  C3_flush_amended cfgW3 sC3 rfl

/-- C4 counterexample: when the underlying writer supports hijack and push
(and flush) but not close-notify, the `switch` in `handler.ServeHTTP` picks
the hijack-only wrapper: the push capability is dropped, so the writer handed
to the handler does not support exactly the capabilities of the underlying
writer. -/
theorem C4_caps_counterexample :
    exposedCaps false true true ≠ underlyingCaps false true true true ∧
    (underlyingCaps false true true true).push = true ∧
    (exposedCaps false true true).push = false := by decide

/-- C4 amended: the writer handed to the wrapped handler always advertises
flush (the decision writer implements Flush itself, whether or not the
underlying writer does), exposes close-notify iff the underlying writer has
it, hijack iff the underlying writer has it, and push only when the
underlying writer has push and not hijack (the switch prefers the hijack
wrappers, which carry no Pusher). -/
theorem C4_caps_amended : ∀ cok hok pok : Bool,
    exposedCaps cok hok pok =
      { closeNotify := cok, hijack := hok, push := pok && !hok,
        flush := true } := by decide

/-- C5: the underlying writer's WriteHeader is called exactly once per
request — never while the decision writer is still buffering (not yet
committed), and, in the final event stream, before any body chunk; a
WriteHeader call on the decision writer itself only updates the saved status
code. -/
theorem C5_writeHeader_once (cfg : Config) (h0 : HeaderMap) (pool : GzPool) :
    (∀ ops2 sMid, run cfg (initState h0 pool) ops2 = some sMid →
      sMid.buf ≠ none → countWh sMid.events = 0) ∧
    (∀ ops sFin err, runClose cfg (initState h0 pool) ops = some (sFin, err) →
      countWh sFin.events = 1 ∧ wellOrdered sFin.events = true) ∧
    (∀ s c, step cfg s (HOp.writeHeader c) = some { s with code := c }) := by
  refine ⟨?_, ?_, fun s c => rfl⟩
  · intro ops2 sMid hr hbuf
    have hinv := runInv (initInv cfg h0 pool) hr
    cases hinv with
    | inl hp => exact flushOnly_countWh hp.2.2.2.1
    | inr hp => exact absurd hp.1 hbuf
  · intro ops sFin err hrun
    rw [runClose] at hrun
    cases hr : run cfg (initState h0 pool) ops with
    | none =>
      rw [hr] at hrun
      exact Option.noConfusion hrun
    | some s1 =>
      rw [hr] at hrun
      simp only [Option.map_some'] at hrun
      injection hrun with h1
      have hinv := runInv (initInv cfg h0 pool) hr
      cases hinv with
      | inl hp =>
        have hobs := closePre_obs hp
        rw [h1] at hobs
        exact ⟨hobs.2.2.2.1, hobs.2.2.2.2.1⟩
      | inr hp =>
        have hobs := closePost_obs hp
        rw [h1] at hobs
        exact ⟨hobs.2.2.1, hobs.2.2.2.1⟩

theorem C5_writeHeader_once_witness :
    countWh sW1.events = 1 ∧ wellOrdered sW1.events = true :=
  (C5_writeHeader_once cfgW1 [] ⟨[], 0⟩).2.1 [HOp.write [7]] sW1 none (by decide)

/-- C6: a second Close after a first Close has released the compressor is a
no-op returning success (nil error, state unchanged, in particular nothing is
put into the pool again), and the handle is in the pool exactly once: two
sequential pool acquisitions after the double close yield distinct handles.
The handle-freshness hypotheses say the writer owns its handle: the handle is
not simultaneously in the free list and is one the pool has issued. -/
theorem C6_double_close (cfg : Config) (s : RWState) (g : GzWriter)
    (hgw : s.gw = some g) (hbuf : s.buf = none)
    (hfree : g.id ∉ s.pool.free) (hlt : g.id < s.pool.next) :
    (rwClose cfg s).2 = none ∧
    rwClose cfg (rwClose cfg s).1 = ((rwClose cfg s).1, none) ∧
    (poolGet (rwClose cfg (rwClose cfg s).1).1.pool).1 ≠
      (poolGet (poolGet (rwClose cfg (rwClose cfg s).1).1.pool).2).1 := by
  have h1 : rwClose cfg s =
      ({ s with
          events := s.events ++ [Event.gzChunk []],
          pool := poolPut s.pool g.id,
          gw := none }, none) := by
    simp only [rwClose, hbuf, hgw]
  have h2 : rwClose cfg { s with
      events := s.events ++ [Event.gzChunk []],
      pool := poolPut s.pool g.id,
      gw := none } =
      ({ s with
          events := s.events ++ [Event.gzChunk []],
          pool := poolPut s.pool g.id,
          gw := none }, none) := by
    simp only [rwClose, hbuf]
  refine ⟨by rw [h1], by rw [h1, h2], ?_⟩
  rw [h1, h2]
  simp only [poolPut, poolGet]
  cases hfr : s.pool.free with
  | nil =>
    simp only [hfr]
    exact Nat.ne_of_lt hlt
  | cons x t =>
    simp only [hfr]
    intro he
    rw [hfr] at hfree
    subst he
    exact hfree (List.mem_cons_self _ _)

/-- A decision writer that committed to compression and owns pooled handle 0
(the pool has issued one handle and none is free). -/
def sC6 : RWState :=
  { header := [("Vary", ["Accept-Encoding"]), ("Content-Encoding", ["gzip"])]
    events := [Event.wh 200, Event.gzChunk [5]]
    code := 200
    buf := none
    gw := some ⟨0, [5]⟩
    state := WState.compress
    pool := ⟨[], 1⟩
    whCount := 1
    inferLog := [0] }

theorem C6_double_close_witness :
    (rwClose cfgW1 sC6).2 = none ∧
    rwClose cfgW1 (rwClose cfgW1 sC6).1 = ((rwClose cfgW1 sC6).1, none) ∧
    (poolGet (rwClose cfgW1 (rwClose cfgW1 sC6).1).1.pool).1 ≠
      (poolGet (poolGet (rwClose cfgW1 (rwClose cfgW1 sC6).1).1.pool).2).1 :=
  C6_double_close cfgW1 sC6 ⟨0, [5]⟩ rfl rfl (by decide) (by decide)

/-- C7: the commitment step to the compressing path (`startGzip`) updates the
header map by setting Content-Encoding to "gzip" and deleting any
Content-Length entry, and leaves every other header key unchanged. -/
theorem C7_commit_header_frame (s : RWState) (k : String)
    (hne1 : k ≠ "Content-Encoding") (hne2 : k ≠ "Content-Length") :
    hGet (startGzip s).header "Content-Encoding" = some ["gzip"] ∧
    hGet (startGzip s).header "Content-Length" = none ∧
    hGet (startGzip s).header k = hGet s.header k := by
  refine ⟨?_, ?_, ?_⟩
  · rw [startGzip_header, hGet_hDel_ne _ (by decide), hGet_hSet_self]
  · rw [startGzip_header, hGet_hDel_self]
  · rw [startGzip_header, hGet_hDel_ne _ hne2, hGet_hSet_ne _ hne1]

/-- A buffering writer whose handler set Content-Length and a custom header
before the body crossed the threshold. -/
def sC7 : RWState :=
  { header := [("Vary", ["Accept-Encoding"]), ("Content-Length", ["4"]),
      ("X-Custom", ["v"])]
    events := []
    code := 200
    buf := some [1, 2, 3, 4]
    gw := none
    state := WState.compress
    pool := ⟨[], 0⟩
    whCount := 0
    inferLog := [0] }

theorem C7_commit_header_frame_witness :
    hGet (startGzip sC7).header "Content-Encoding" = some ["gzip"] ∧
    hGet (startGzip sC7).header "Content-Length" = none ∧
    hGet (startGzip sC7).header "X-Custom" = hGet sC7.header "X-Custom" :=
  C7_commit_header_frame sC7 "X-Custom" (by decide) (by decide)

/-- C8: content-type inference (a) never modifies the header map when the
handler already set a Content-Type, (b) when Content-Type is absent sets it
from the sniffing function applied to (at most) the 512-byte window of the
buffered bytes concatenated with the triggering write, and (c) over any
complete request, runs exactly once, at a moment when no header had been
emitted to the underlying writer (the ghost `inferLog` records the count of
underlying WriteHeader calls at each inference; `[0]` means one inference,
before the status line). -/
theorem C8_sniff_once :
    (∀ (cfg : Config) (s : RWState) (b : Bytes) (vs : List String),
      hGet s.header "Content-Type" = some vs →
      (inferContentType cfg s b).header = s.header) ∧
    (∀ (cfg : Config) (s : RWState) (b : Bytes),
      hGet s.header "Content-Type" = none →
      (inferContentType cfg s b).header =
        hSet s.header "Content-Type"
          [cfg.sniff ((s.buf.getD [] ++ b).take 512)]) ∧
    (∀ (cfg : Config) (h0 : HeaderMap) (pool : GzPool) (ops : List HOp)
      (sFin : RWState) (err : Option String),
      runClose cfg (initState h0 pool) ops = some (sFin, err) →
      sFin.inferLog = [0]) := by
  refine ⟨?_, ?_, ?_⟩
  · intro cfg s b vs hct
    rw [inferCT_header, inferCTHeader_present hct]
  · intro cfg s b hct
    rw [inferCT_header, inferCTHeader_absent hct]
  · intro cfg h0 pool ops sFin err hrun
    rw [runClose] at hrun
    cases hr : run cfg (initState h0 pool) ops with
    | none =>
      rw [hr] at hrun
      exact Option.noConfusion hrun
    | some s1 =>
      rw [hr] at hrun
      simp only [Option.map_some'] at hrun
      injection hrun with h1
      have hinv := runInv (initInv cfg h0 pool) hr
      cases hinv with
      | inl hp =>
        have hobs := closePre_obs hp
        rw [h1] at hobs
        exact hobs.2.2.2.2.2.1
      | inr hp =>
        have hobs := closePost_obs hp
        rw [h1] at hobs
        exact hobs.2.1

theorem C8_sniff_once_witness : sW1.inferLog = [0] :=
  C8_sniff_once.2.2 cfgW1 [] ⟨[], 0⟩ [HOp.write [7]] sW1 none (by decide)

/-- C9 counterexample: the middleware's loop uses only the FIRST
case-insensitive gzip entry of the parsed Accept-Encoding list and stops
(`break`).  The list `[("gzip", 0), ("gzip", 7)]` contains a gzip token with
positive quality, so the claim says the writer is wrapped — but the loop
hits the zero-quality entry first and the middleware does not wrap. -/
theorem C9_accept_counterexample :
    acceptsGzip [("gzip", 0), ("gzip", 7)] = false ∧
    ("gzip", 7) ∈ [("gzip", 0), ("gzip", 7)] ∧
    isGzipToken "gzip" = true ∧ 0 < 7 := by decide

/-- C9 amended: the middleware wraps the response writer iff the FIRST entry
of the parsed Accept-Encoding list whose token has the length of "gzip" and
equals "gzip" case-insensitively exists and carries a positive quality;
entries after that first match are ignored. -/
theorem C9_accept_amended (l : List (String × Nat)) :
    acceptsGzip l = (match firstGzipQ l with
      | some q => decide (0 < q)
      | none => false) := by
  induction l with
  | nil => rfl
  | cons p t ih =>
    obtain ⟨v, q⟩ := p
    by_cases h4 : v.length = 4
    · by_cases hg : isGzipToken v = true
      · simp [acceptsGzip, firstGzipQ, h4, hg]
      · simp [acceptsGzip, firstGzipQ, h4, hg, ih]
    · simp [acceptsGzip, firstGzipQ, h4, ih]

/-- C10: once the path has been committed (the buffer released — which is
exactly when the status line has been transmitted), a WriteHeader call on the
decision writer only overwrites the saved status-code field, and that field
is never read again: every observable of the rest of the request (headers,
events reaching the underlying writer, pool, error) is unchanged under any
replacement of the saved code. -/
theorem C10_code_dead (cfg : Config) (s : RWState) (c : Nat) (ops : List HOp)
    (hb : s.buf = none) :
    step cfg s (HOp.writeHeader c) = some { s with code := c } ∧
    Option.map (fun p => (eraseCode p.1, p.2))
        (runClose cfg { s with code := c } ops) =
      Option.map (fun p => (eraseCode p.1, p.2)) (runClose cfg s ops) := by
  refine ⟨rfl, ?_⟩
  rcases @run_code_rel cfg ops s hb c with ⟨h1, h2⟩ | ⟨u, d, h2, hub, h1⟩
  · rw [runClose, runClose, h1, h2]
  · rw [runClose, runClose, h1, h2]
    simp only [Option.map_some']
    rw [rwClose_code d hub]
    rfl

/-- A committed pass-through writer (buffer released, status line sent). -/
def sC10 : RWState :=
  { header := [("Vary", ["Accept-Encoding"])]
    events := [Event.wh 200]
    code := 200
    buf := none
    gw := none
    state := WState.passThrough
    pool := ⟨[], 0⟩
    whCount := 1
    inferLog := [0] }

theorem C10_code_dead_witness :
    step cfgW1 sC10 (HOp.writeHeader 404) = some { sC10 with code := 404 } ∧
    Option.map (fun p => (eraseCode p.1, p.2))
        (runClose cfgW1 { sC10 with code := 404 } [HOp.write [9]]) =
      Option.map (fun p => (eraseCode p.1, p.2))
        (runClose cfgW1 sC10 [HOp.write [9]]) :=
  C10_code_dead cfgW1 sC10 404 [HOp.write [9]] rfl

end Gziphandler
